import Mathlib

/-!
Verification of the feedtape-backend text-to-speech pipeline.

Texts are modelled as `List Char`.  Rust's `str::len` counts UTF-8 bytes, so
length comparisons in the code are modelled with `byteLen` (sum of UTF-8 sizes),
while `chars().chunks(n)` counts characters.  The `\s` class of the Rust regex
crate is Unicode white space; the model covers its ASCII part, which is faithful
on all texts whose white space is ASCII (as in every input considered here).
-/

namespace Feedtape

/-- ASCII part of the regex class `\s` (and of Rust `char::is_whitespace`). -/
def isWs (c : Char) : Bool :=
  c = ' ' || c = '\t' || c = '\n' || c = '\r' || c = '\x0b' || c = '\x0c'

/-- Sentence-terminator characters of the regex `[.!?]+\s+` used by
`split_into_batches`. -/
def isTerm (c : Char) : Bool :=
  c = '.' || c = '!' || c = '?'

/-- Rust `str::len`: the number of UTF-8 bytes of the text. -/
def byteLen (l : List Char) : Nat :=
  (l.map Char.utf8Size).sum

/-- Rust `str::trim`: drop white space from both ends. -/
def trim (l : List Char) : List Char :=
  ((((l.dropWhile isWs).reverse).dropWhile isWs).reverse)

/-- Pending partial match of the regex `[.!?]+\s+` while scanning:
either nothing, a run of terminators, or a run of terminators followed by a
run of white space. -/
inductive Pend : Type
  | none : Pend
  | term (ts : List Char) : Pend
  | ws (ts ws : List Char) : Pend
deriving DecidableEq

/-- State of the sentence-boundary scanner: segments already cut (each ends at
the end of a regex match), the characters accumulated since the last match end,
and the pending partial match. -/
structure ScanSt where
  segs : List (List Char)
  acc : List Char
  pend : Pend
deriving DecidableEq

/-- One character step of the leftmost-first scan for `([.!?]+\s+)`, as
`Regex::find_iter` performs it in `split_into_batches`. -/
def scanStep (st : ScanSt) (c : Char) : ScanSt :=
  match st.pend with
  | Pend.none =>
      if isTerm c then { st with pend := Pend.term [c] }
      else { st with acc := st.acc ++ [c] }
  | Pend.term ts =>
      if isTerm c then { st with pend := Pend.term (ts ++ [c]) }
      else if isWs c then { st with pend := Pend.ws ts [c] }
      else { st with acc := st.acc ++ ts ++ [c], pend := Pend.none }
  | Pend.ws ts ws =>
      if isWs c then { st with pend := Pend.ws ts (ws ++ [c]) }
      else if isTerm c then
        { segs := st.segs ++ [st.acc ++ ts ++ ws], acc := [], pend := Pend.term [c] }
      else
        { segs := st.segs ++ [st.acc ++ ts ++ ws], acc := [c], pend := Pend.none }

/-- Close the scan at the end of the text: a pending complete match ends a final
segment, a pending bare terminator run belongs to the remaining tail. -/
def scanFinish (st : ScanSt) : List (List Char) × List Char :=
  match st.pend with
  | Pend.none => (st.segs, st.acc)
  | Pend.term ts => (st.segs, st.acc ++ ts)
  | Pend.ws ts ws => (st.segs ++ [st.acc ++ ts ++ ws], [])

/-- Cut a text at every end of a match of `([.!?]+\s+)` (the loop over
`sentence_pattern.find_iter` with `sentence = &text[last_end..mat.end()]`):
the list of sentence segments and the remaining tail after the last match. -/
def sentenceScan (text : List Char) : List (List Char) × List Char :=
  scanFinish (text.foldl scanStep ⟨[], [], Pend.none⟩)

/-- Rust `chars.chunks(n)` on the remaining tail: chunks of `n` characters
(character count, not bytes), with list-length fuel. -/
def chunksFuel : Nat → Nat → List Char → List (List Char)
  | 0, _, l => if l.isEmpty then [] else [l]
  | f + 1, n, l =>
      if l.isEmpty then [] else l.take n :: chunksFuel f n (l.drop n)

/-- Rust `chars.chunks(n)` (for `n > 0` the fuel never runs out). -/
def chunksOf (n : Nat) (l : List Char) : List (List Char) :=
  chunksFuel l.length n l

/-- Loop body of `split_into_batches` over the sentence segments: if appending
the next sentence to the current batch would exceed the limit, flush the
(trimmed) current batch and start a new one; the state is
`(batches, current_batch)`. -/
def batchStep (maxSize : Nat) (p : List (List Char) × List Char) (s : List Char) :
    List (List Char) × List Char :=
  if ¬ p.2.isEmpty ∧ byteLen p.2 + byteLen s > maxSize then (p.1 ++ [trim p.2], s)
  else (p.1, p.2 ++ s)

/-- The `if last_end < text.len()` block of `split_into_batches`: handle the
remaining text after the last sentence boundary, hard-splitting it into
character chunks when it alone exceeds the limit. -/
def handleTail (maxSize : Nat) (p : List (List Char) × List Char) (rem : List Char) :
    List (List Char) × List Char :=
  if rem.isEmpty then p
  else
    let flushed :=
      if ¬ p.2.isEmpty ∧ byteLen p.2 + byteLen rem > maxSize then
        (p.1 ++ [trim p.2], ([] : List Char))
      else p
    if byteLen rem > maxSize then (flushed.1 ++ chunksOf maxSize rem, flushed.2)
    else (flushed.1, flushed.2 ++ rem)

/-- The final `if !current_batch.is_empty()` push of `split_into_batches`. -/
def finalFlush (p : List (List Char) × List Char) : List (List Char) :=
  if p.2.isEmpty then p.1 else p.1 ++ [trim p.2]

/-- `split_into_batches` of `TtsService` (src/src/domain/tts/service.rs),
`PollyTtsRepository` and `OpenAiTtsRepository` — the three copies are
line-for-line identical up to the constant `MAX_BATCH_SIZE`, passed here as
`maxSize` (3000 for the service and Polly, 4096 for OpenAI). -/
def split_into_batches (maxSize : Nat) (text : List Char) : List (List Char) :=
  if byteLen text ≤ maxSize then [text]
  else
    let scanned := sentenceScan text
    finalFlush
      (handleTail maxSize (scanned.1.foldl (batchStep maxSize) ([], [])) scanned.2)

/-- Accumulator form of splitting a text on white space: `cur` is the reversed
word in progress.  Models Rust `str::split_whitespace` (empty fragments are
never produced). -/
def wordsAux : List Char → List Char → List (List Char)
  | cur, [] => if cur.isEmpty then [] else [cur.reverse]
  | cur, c :: cs =>
      if isWs c then
        if cur.isEmpty then wordsAux [] cs else cur.reverse :: wordsAux [] cs
      else wordsAux (c :: cur) cs

/-- The word sequence of a text: split on white space, dropping empties
(Rust `str::split_whitespace`). -/
def words (l : List Char) : List (List Char) :=
  wordsAux [] l

/-- Join batches with single spaces (`batches.join(" ")`). -/
def joinSp : List (List Char) → List Char
  | [] => []
  | [b] => b
  | b :: b2 :: bs => b ++ ' ' :: joinSp (b2 :: bs)

/-- A text ending in a white-space character. -/
def EndsWs (l : List Char) : Prop :=
  ∃ a w, isWs w ∧ l = a ++ [w]

/-- Characters held by a pending partial match. -/
def pendChars : Pend → List Char
  | Pend.none => []
  | Pend.term ts => ts
  | Pend.ws ts ws => ts ++ ws

/-- All input characters a scanner state accounts for, in order. -/
def stContent (st : ScanSt) : List Char :=
  st.segs.flatten ++ st.acc ++ pendChars st.pend

/-- Well-formedness of a pending match: a white-space run is nonempty and ends
in a white-space character. -/
def PendOk : Pend → Prop
  | Pend.ws _ ws => ∃ a w, isWs w ∧ ws = a ++ [w]
  | _ => True

/-- Word sequence of a list of batches. -/
def flatWords (bs : List (List Char)) : List (List Char) :=
  (bs.map words).flatten

/-- State-machine body of the regex replacement `\s+` → `" "` in `clean_text`:
the flag records whether the previous character was white space (in which case
a further white-space character extends the same run and emits nothing). -/
def collapseWsGo : List Char → Bool → List Char
  | [], _ => []
  | c :: cs, prevWs =>
      if isWs c then
        if prevWs then collapseWsGo cs true else ' ' :: collapseWsGo cs true
      else c :: collapseWsGo cs false

/-- The `whitespace_pattern.replace_all(.., " ")` stage of `clean_text`:
every maximal run of white space becomes one single space. -/
def collapseWs (l : List Char) : List Char :=
  collapseWsGo l false

/-- Match of the regex `https?://[^\s]+` anchored at the head of `l`: the
total length of the match if there is one.  `[.!?]+`-style backtracking is not
needed: `http://` and `https://` can never both be prefixes of the same text. -/
def urlMatchLen (l : List Char) : Option Nat :=
  let p1 : List Char := ['h', 't', 't', 'p', ':', '/', '/']
  let p2 : List Char := ['h', 't', 't', 'p', 's', ':', '/', '/']
  if p2.isPrefixOf l then
    let run := (l.drop 8).takeWhile (fun c => ¬ isWs c)
    if run.isEmpty then none else some (8 + run.length)
  else if p1.isPrefixOf l then
    let run := (l.drop 7).takeWhile (fun c => ¬ isWs c)
    if run.isEmpty then none else some (7 + run.length)
  else none

/-- Fuel-indexed leftmost scan of `url_pattern.replace_all(.., "")`: delete
every non-overlapping match of `https?://[^\s]+`. -/
def removeUrlsFuel : Nat → List Char → List Char
  | 0, l => l
  | _ + 1, [] => []
  | f + 1, c :: cs =>
      match urlMatchLen (c :: cs) with
      | some k => removeUrlsFuel f ((c :: cs).drop k)
      | none => c :: removeUrlsFuel f cs

/-- The `url_pattern.replace_all(.., "")` stage of `clean_text` (a match always
consumes at least one character, so list-length fuel suffices). -/
def removeUrls (l : List Char) : List Char :=
  removeUrlsFuel l.length l

/-- `TtsService::clean_text` (src/src/domain/tts/service.rs lines 280-294):
render HTML to plain text, remove URLs, collapse white-space runs to a single
space, trim.  The first stage, the third-party crate `html2text::from_read`,
is not repository code; it is taken as the function parameter `render`. -/
def clean_text (render : List Char → List Char) (text : List Char) : List Char :=
  trim (collapseWs (removeUrls (render text)))

/-- The `lingua::Language` enumeration as compiled for this repository: the
crate is built with exactly the six language features the service supports. -/
inductive Lingua : Type
  | english | spanish | french | german | italian | portuguese
deriving DecidableEq

/-- `LanguageCode` (src/src/domain/tts/language.rs): the closed set of six
supported languages. -/
inductive LanguageCode : Type
  | english | spanish | french | german | italian | portuguese
deriving DecidableEq

/-- `LanguageCode::from_lingua` (src/src/domain/tts/language.rs lines 35-44). -/
def from_lingua : Lingua → LanguageCode
  | Lingua.english => LanguageCode.english
  | Lingua.spanish => LanguageCode.spanish
  | Lingua.french => LanguageCode.french
  | Lingua.german => LanguageCode.german
  | Lingua.italian => LanguageCode.italian
  | Lingua.portuguese => LanguageCode.portuguese

/-- `TtsService::detect_language` (src/src/domain/tts/service.rs lines
266-278).  The statistical classifier `detector.detect_language_of` is the
third-party lingua crate, taken as the function parameter `detector`; on `None`
the method falls back to English. -/
def detect_language (detector : List Char → Option Lingua) (text : List Char) :
    LanguageCode :=
  match detector text with
  | some language => from_lingua language
  | none => LanguageCode.english

/-- The free function `detect_language` of src/src/domain/tts/language.rs
(lines 55-74): same classification, but on `None` it falls back to Spanish. -/
def language_detect_language (detector : List Char → Option Lingua)
    (text : List Char) : LanguageCode :=
  match detector text with
  | some language => from_lingua language
  | none => LanguageCode.spanish

/-- `SubscriptionTier` (src/src/domain/user/model.rs). -/
inductive SubscriptionTier : Type
  | free | pro
deriving DecidableEq

/-- The fields of `User` (src/src/domain/user/model.rs) that the TTS path
reads.  `created_at` is a UTC timestamp in seconds. -/
structure User where
  subscription_tier : SubscriptionTier
  created_at : Int
deriving DecidableEq

/-- `User::is_trial_expired` (src/src/domain/user/model.rs lines 92-97):
`chrono`'s `num_days` is the whole number of days of the signed duration,
truncated toward zero, hence `Int.div` by 86400 seconds. -/
def is_trial_expired (user : User) (now : Int) : Bool :=
  user.subscription_tier = SubscriptionTier.free ∧
    Int.tdiv (now - user.created_at) 86400 ≥ 7

/-- `TtsServiceError` (src/src/domain/tts/error.rs).  The `Other(anyhow)`
variant carries an opaque error; its payload is modelled as a string. -/
inductive TtsServiceError : Type
  | dependency (msg : String)
  | invalid (msg : String)
  | paymentRequired (msg : String)
  | other (msg : String)
deriving DecidableEq

/-- The `format!` string of the quota rejection in `guard_usage`. -/
def limitMsg (used limit request : Int) : String :=
  "Daily character limit exceeded. Used: " ++ toString used ++ ", Limit: "
    ++ toString limit ++ ", Request: " ++ toString request

/-- The trial rejection message of `guard_usage`. -/
def trialMsg : String :=
  "Free trial expired. Please upgrade to Pro to continue."

/-- `TtsService::guard_usage` (src/src/domain/tts/service.rs lines 144-172).
The repository read `get_today_usage` is passed in as `usageToday` (`None`
when no row exists for today; the code then uses 0).  The `match` with the
early `return` inside the `Free` arm is modelled as an `Except` for the
character limit. -/
def guard_usage (user : User) (now : Int) (usageToday : Option Int)
    (charCount : Int) : Except TtsServiceError Unit :=
  let characters_used_today := usageToday.getD 0
  match (match user.subscription_tier with
         | SubscriptionTier.free =>
             if is_trial_expired user now then
               Except.error (TtsServiceError.paymentRequired trialMsg)
             else Except.ok (20000 : Int)
         | SubscriptionTier.pro => Except.ok (200000 : Int)) with
  | Except.error e => Except.error e
  | Except.ok character_limit =>
      if characters_used_today + charCount > character_limit then
        Except.error (TtsServiceError.paymentRequired
          (limitMsg characters_used_today character_limit charCount))
      else Except.ok ()

/-- `TtsService::synthesize_batches` (src/src/domain/tts/service.rs lines
236-264): call the provider once per batch, sequentially and in order,
concatenating the audio; abort on the first error.  The second component is
the list of batch texts actually sent to the provider, in call order. -/
def synthesize_batches (provider : List Char → Except String (List Nat)) :
    List (List Char) → Except String (List Nat) × List (List Char)
  | [] => (Except.ok [], [])
  | b :: bs =>
      match provider b with
      | Except.error e => (Except.error e, [b])
      | Except.ok audio =>
          let rest := synthesize_batches provider bs
          (match rest.1 with
           | Except.error e => Except.error e
           | Except.ok more => Except.ok (audio ++ more), b :: rest.2)

/-- `TtsSynthesisResult` (src/src/domain/tts/service.rs lines 18-24).
`duration_minutes = char_count / 1000.0` is an `f32` quantity; no claim
depends on it, so the floating-point field is not carried. -/
structure TtsSynthesisResult where
  audio_data : List Nat
  language_detected : LanguageCode
  char_count : Int
deriving DecidableEq

instance {ε α : Type} [DecidableEq ε] [DecidableEq α] : DecidableEq (Except ε α) :=
  fun x y =>
    match x, y with
    | Except.ok a, Except.ok b =>
        if h : a = b then isTrue (by rw [h])
        else isFalse (by intro hc; cases hc; exact h rfl)
    | Except.error a, Except.error b =>
        if h : a = b then isTrue (by rw [h])
        else isFalse (by intro hc; cases hc; exact h rfl)
    | Except.ok _, Except.error _ => isFalse (by intro hc; cases hc)
    | Except.error _, Except.ok _ => isFalse (by intro hc; cases hc)

/-- The collaborators `TtsService::synthesize` consults, as one environment:
the third-party HTML renderer and language classifier, the user row, today's
usage row, AWS Polly (`call_polly`, per batch), and the current time.  Store
calls are assumed available (their transport failures are not modelled). -/
structure SynthEnv where
  htmlRender : List Char → List Char
  detector : List Char → Option Lingua
  user : Option User
  usageToday : Option Int
  provider : List Char → Except String (List Nat)
  now : Int

/-- Observable outcome of one `synthesize` call: its result, the batch texts
sent to the provider in order, and the `increment_usage` amounts recorded. -/
structure SynthOutcome where
  result : Except TtsServiceError TtsSynthesisResult
  providerCalls : List (List Char)
  increments : List Int
deriving DecidableEq

/-- `TtsService::synthesize` (src/src/domain/tts/service.rs lines 71-132):
clean the text, detect the language, find the user (`None` becomes
`Invalid "User not found"`), guard usage, split into batches with
`MAX_BATCH_SIZE = 3000`, synthesize every batch, then track usage. -/
def synthesize (env : SynthEnv) (raw : List Char) : SynthOutcome :=
  let cleaned := clean_text env.htmlRender raw
  let char_count : Int := (byteLen cleaned : Int)
  let detected_language := detect_language env.detector cleaned
  match env.user with
  | none => ⟨Except.error (TtsServiceError.invalid "User not found"), [], []⟩
  | some user =>
      match guard_usage user env.now env.usageToday char_count with
      | Except.error e => ⟨Except.error e, [], []⟩
      | Except.ok _ =>
          let batches := split_into_batches 3000 cleaned
          let sb := synthesize_batches env.provider batches
          match sb.1 with
          | Except.error msg =>
              ⟨Except.error (TtsServiceError.dependency msg), sb.2, []⟩
          | Except.ok audio =>
              ⟨Except.ok ⟨audio, detected_language, char_count⟩, sb.2,
                [char_count]⟩

/-- The `AppError` variants reachable from the TTS controller
(src/src/error.rs). -/
inductive AppError : Type
  | badRequest (msg : String)
  | payloadTooLarge (msg : String)
  | paymentRequired (msg : String)
  | externalService (msg : String)
  | internal (msg : String)
deriving DecidableEq

/-- `From<TtsServiceError> for AppError` (src/src/domain/tts/error.rs). -/
def appErrorFromTts : TtsServiceError → AppError
  | TtsServiceError.paymentRequired msg => AppError.paymentRequired msg
  | TtsServiceError.invalid msg => AppError.badRequest msg
  | TtsServiceError.dependency msg => AppError.externalService msg
  | TtsServiceError.other msg => AppError.internal msg

/-- `TtsController::synthesize` (src/src/controllers/tts.rs lines 51-67):
`char_count` is `request.text.len()` — the BYTE length of the raw request
text, before any normalization.  The second component is the text handed to
the service (`None` when the controller rejected before calling it). -/
def controller_synthesize (env : SynthEnv) (raw : List Char) :
    Except AppError TtsSynthesisResult × Option (List Char) :=
  let char_count : Int := (byteLen raw : Int)
  if char_count = 0 then
    (Except.error (AppError.badRequest "Text cannot be empty"), none)
  else if char_count > 10000 then
    (Except.error (AppError.payloadTooLarge "Text must be 10,000 characters or less"),
      none)
  else
    let outcome := synthesize env raw
    (match outcome.result with
     | Except.error e => Except.error (appErrorFromTts e)
     | Except.ok r => Except.ok r, some raw)

/-- Association-list lookup of the result cache, keyed by source link. -/
def cache_lookup (cache : List (List Char × TtsSynthesisResult))
    (link : List Char) : Option TtsSynthesisResult :=
  match cache with
  | [] => none
  | (k, v) :: rest => if k = link then some v else cache_lookup rest link

/-- Modelled from the spec: the configuration-gated result cache of
sections 4.6 and 4.7 (steps 1 and 10).  The flag `TTS_CACHE_ENABLED` and the
`config.tts_cache_enabled` argument of `TtsService::new` exist in
src/src/infrastructure/config/mod.rs and src/src/main.rs, but the caching
implementation inside the service is absent from src/, so it is modelled from
the spec's words: on a hit return the stored result and perform no provider
call and no usage increment; on a miss run the full pipeline and store a
successful result under the link.  (Capacity bounds and the sliding TTL are
not needed by the claims and are not modelled.) -/
def synthesize_with_cache (cacheEnabled : Bool)
    (cache : List (List Char × TtsSynthesisResult)) (env : SynthEnv)
    (raw link : List Char) :
    SynthOutcome × List (List Char × TtsSynthesisResult) :=
  if cacheEnabled then
    match cache_lookup cache link with
    | some r => (⟨Except.ok r, [], []⟩, cache)
    | none =>
        let o := synthesize env raw
        match o.result with
        | Except.ok r => (o, (link, r) :: cache)
        | Except.error _ => (o, cache)
  else (synthesize env raw, cache)

/-- A concrete collaborator environment for witnesses: identity renderer (the
HTML renderer is the identity on plain text), an undecided classifier, a fresh
pro-tier user, no usage row yet, and a provider that returns empty audio. -/
def testEnv : SynthEnv :=
  { htmlRender := id, detector := fun _ => none,
    user := some ⟨SubscriptionTier.pro, 0⟩, usageToday := none,
    provider := fun _ => Except.ok [], now := 0 }

-- ===== claim-model definitions end here; theorems follow =====

theorem byteLen_nil : byteLen [] = 0 := rfl

theorem byteLen_cons (c : Char) (l : List Char) :
    byteLen (c :: l) = c.utf8Size + byteLen l := by
  simp [byteLen]

theorem byteLen_append (a b : List Char) :
    byteLen (a ++ b) = byteLen a + byteLen b := by
  simp [byteLen]

theorem byteLen_replicate (n : Nat) (c : Char) :
    byteLen (List.replicate n c) = n * c.utf8Size := by
  induction n with
  | zero => simp [byteLen]
  | succ n ih => simp [List.replicate_succ, byteLen_cons, ih, Nat.succ_mul]; omega

example :
    sentenceScan "a. . b".data = ([['a', '.', ' '], ['.', ' ']], ['b']) := by
  decide

example :
    split_into_batches 5 "ab. cd".data = ["ab.".data, "cd".data] := by
  decide

example :
    split_into_batches 30 "First one. Second. Third.".data
      = ["First one. Second. Third.".data] := by
  decide

example : words "  the quick  brown ".data = ["the".data, "quick".data, "brown".data] := by
  decide

example : joinSp ["ab".data, "c".data] = "ab c".data := by
  decide

theorem endsWs_append_left (a : List Char) {b : List Char} (h : EndsWs b) :
    EndsWs (a ++ b) := by
  obtain ⟨b', w, hw, rfl⟩ := h
  exact ⟨a ++ b', w, hw, by simp⟩

theorem wordsAux_append_ws {w : Char} (hw : isWs w) (a b cur : List Char) :
    wordsAux cur (a ++ w :: b) = wordsAux cur a ++ wordsAux [] b := by
  induction a generalizing cur with
  | nil =>
      by_cases hc : cur.isEmpty <;> simp [wordsAux, hw, hc]
  | cons c a ih =>
      by_cases hcw : isWs c
      · by_cases hc : cur.isEmpty <;> simp [wordsAux, hcw, hc, ih]
      · simp [wordsAux, hcw, ih]

theorem words_append_endsWs {a : List Char} (h : EndsWs a) (b : List Char) :
    words (a ++ b) = words a ++ words b := by
  obtain ⟨a', w, hw, rfl⟩ := h
  have h1 : words ((a' ++ [w]) ++ b) = words a' ++ words b := by
    simpa [words] using wordsAux_append_ws hw a' b []
  have h2 : words (a' ++ [w]) = words a' := by
    simpa [words, wordsAux] using wordsAux_append_ws hw a' [] []
  rw [h1, h2]

theorem words_append_of_emptyOrEndsWs {a : List Char} (h : a = [] ∨ EndsWs a)
    (b : List Char) : words (a ++ b) = words a ++ words b := by
  rcases h with rfl | h
  · simp [words, wordsAux]
  · exact words_append_endsWs h b

theorem words_joinSp (bs : List (List Char)) :
    words (joinSp bs) = (bs.map words).flatten := by
  induction bs with
  | nil => simp [joinSp, words, wordsAux]
  | cons b bs ih =>
      cases bs with
      | nil => simp [joinSp]
      | cons b2 bs2 =>
          have hw : isWs ' ' := by decide
          calc words (joinSp (b :: b2 :: bs2))
              = words (b ++ ' ' :: joinSp (b2 :: bs2)) := rfl
            _ = words b ++ words (joinSp (b2 :: bs2)) := by
                  simpa [words] using wordsAux_append_ws hw b (joinSp (b2 :: bs2)) []
            _ = _ := by rw [ih]; simp

theorem wordsAux_allWs : ∀ {m : List Char}, (∀ c ∈ m, isWs c) →
    ∀ cur, wordsAux cur m = wordsAux cur [] := by
  intro m
  induction m with
  | nil => intro _ _; rfl
  | cons w m ih =>
      intro h cur
      have hw : isWs w := h w (by simp)
      have hm : ∀ c ∈ m, isWs c := fun c hc => h c (by simp [hc])
      have h0 : wordsAux [] m = [] := by simpa [wordsAux] using ih hm []
      by_cases hc : cur.isEmpty <;> simp [wordsAux, hw, hc, h0]

theorem wordsAux_append_allWs {m : List Char} (h : ∀ c ∈ m, isWs c)
    (l cur : List Char) : wordsAux cur (l ++ m) = wordsAux cur l := by
  induction l generalizing cur with
  | nil => simpa using wordsAux_allWs h cur
  | cons c l ih =>
      by_cases hcw : isWs c
      · by_cases hc : cur.isEmpty <;> simp [wordsAux, hcw, hc, ih]
      · simp [wordsAux, hcw, ih]

theorem words_dropWhile_ws (l : List Char) : words (l.dropWhile isWs) = words l := by
  induction l with
  | nil => rfl
  | cons c l ih =>
      by_cases hcw : isWs c
      · simpa [List.dropWhile_cons, hcw, words, wordsAux] using ih
      · simp [List.dropWhile_cons, hcw]

theorem words_trim (l : List Char) : words (trim l) = words l := by
  have hd : l.dropWhile isWs
      = trim l ++ (((l.dropWhile isWs).reverse).takeWhile isWs).reverse := by
    have hsplit := List.takeWhile_append_dropWhile (p := isWs)
      (l := (l.dropWhile isWs).reverse)
    have h2 := congrArg List.reverse hsplit
    simp only [List.reverse_append, List.reverse_reverse] at h2
    exact h2.symm
  have hws : ∀ c ∈ (((l.dropWhile isWs).reverse).takeWhile isWs).reverse, isWs c := by
    intro c hc
    exact List.mem_takeWhile_imp (List.mem_reverse.mp hc)
  calc words (trim l)
      = words (trim l ++ (((l.dropWhile isWs).reverse).takeWhile isWs).reverse) := by
        simpa [words] using
          (wordsAux_append_allWs hws (trim l) []).symm
    _ = words (l.dropWhile isWs) := by rw [← hd]
    _ = words l := words_dropWhile_ws l

theorem scanStep_content (st : ScanSt) (c : Char) :
    stContent (scanStep st c) = stContent st ++ [c] := by
  cases st with
  | mk segs acc pend =>
      cases pend with
      | none =>
          by_cases ht : isTerm c <;> simp [scanStep, stContent, pendChars, ht]
      | term ts =>
          by_cases ht : isTerm c
          · simp [scanStep, stContent, pendChars, ht]
          · by_cases hw : isWs c <;> simp [scanStep, stContent, pendChars, ht, hw]
      | ws ts ws =>
          by_cases hw : isWs c
          · simp [scanStep, stContent, pendChars, hw]
          · by_cases ht : isTerm c <;> simp [scanStep, stContent, pendChars, ht, hw]

theorem scanStep_inv (st : ScanSt) (c : Char) (h1 : ∀ s ∈ st.segs, EndsWs s)
    (h2 : PendOk st.pend) :
    (∀ s ∈ (scanStep st c).segs, EndsWs s) ∧ PendOk (scanStep st c).pend := by
  cases st with
  | mk segs acc pend =>
      cases pend with
      | none =>
          by_cases ht : isTerm c <;> simp_all [scanStep, PendOk]
      | term ts =>
          by_cases ht : isTerm c
          · simp_all [scanStep, PendOk]
          · by_cases hw : isWs c
            · refine ⟨?_, ?_⟩ <;> simp_all [scanStep, PendOk]
              exact ⟨[], c, hw, rfl⟩
            · simp_all [scanStep, PendOk]
      | ws ts ws =>
          obtain ⟨a, w, hwsw, rfl⟩ := h2
          by_cases hw : isWs c
          · refine ⟨?_, ?_⟩ <;> simp_all [scanStep, PendOk]
            exact ⟨a ++ [w], c, hw, by simp⟩
          · have hseg : EndsWs (acc ++ ts ++ (a ++ [w])) :=
              ⟨acc ++ ts ++ a, w, hwsw, by simp⟩
            by_cases ht : isTerm c
            · refine ⟨?_, ?_⟩ <;> simp_all [scanStep, PendOk]
              intro s hs
              rcases hs with hs | rfl
              · exact h1 s hs
              · exact hseg
            · refine ⟨?_, ?_⟩ <;> simp_all [scanStep, PendOk]
              intro s hs
              rcases hs with hs | rfl
              · exact h1 s hs
              · exact hseg

theorem scan_foldl (cs : List Char) : ∀ st : ScanSt, (∀ s ∈ st.segs, EndsWs s) →
    PendOk st.pend →
    (∀ s ∈ (cs.foldl scanStep st).segs, EndsWs s) ∧
      PendOk (cs.foldl scanStep st).pend ∧
      stContent (cs.foldl scanStep st) = stContent st ++ cs := by
  induction cs with
  | nil => intro st h1 h2; exact ⟨h1, h2, by simp⟩
  | cons c cs ih =>
      intro st h1 h2
      obtain ⟨h1', h2'⟩ := scanStep_inv st c h1 h2
      obtain ⟨g1, g2, g3⟩ := ih (scanStep st c) h1' h2'
      refine ⟨g1, g2, ?_⟩
      rw [List.foldl_cons] at *
      rw [g3, scanStep_content]
      simp

theorem sentenceScan_endsWs (text : List Char) :
    ∀ s ∈ (sentenceScan text).1, EndsWs s := by
  obtain ⟨g1, g2, -⟩ :=
    scan_foldl text ⟨[], [], Pend.none⟩ (by simp) (by trivial)
  intro s hs
  unfold sentenceScan at hs
  cases hfold : (text.foldl scanStep ⟨[], [], Pend.none⟩) with
  | mk segs acc pend =>
      rw [hfold] at g1 g2 hs
      cases pend with
      | none => exact g1 s hs
      | term ts => exact g1 s hs
      | ws ts ws =>
          simp only [scanFinish, List.mem_append, List.mem_singleton] at hs
          rcases hs with hs | rfl
          · exact g1 s hs
          · obtain ⟨a, w, hw, rfl⟩ := g2
            exact ⟨acc ++ ts ++ a, w, hw, by simp⟩

theorem sentenceScan_content (text : List Char) :
    (sentenceScan text).1.flatten ++ (sentenceScan text).2 = text := by
  obtain ⟨-, -, g3⟩ :=
    scan_foldl text ⟨[], [], Pend.none⟩ (by simp) (by trivial)
  unfold sentenceScan
  cases hfold : (text.foldl scanStep ⟨[], [], Pend.none⟩) with
  | mk segs acc pend =>
      rw [hfold] at g3
      simp only [stContent, List.flatten_nil, List.nil_append, pendChars] at g3
      cases pend with
      | none => simpa [scanFinish, stContent, pendChars] using g3
      | term ts => simpa [scanFinish, stContent, pendChars] using g3
      | ws ts ws => simpa [scanFinish, stContent, pendChars] using g3

theorem flatWords_append (a b : List (List Char)) :
    flatWords (a ++ b) = flatWords a ++ flatWords b := by
  simp [flatWords]

theorem words_joinSp_finalFlush (p : List (List Char) × List Char) :
    words (joinSp (finalFlush p)) = flatWords p.1 ++ words p.2 := by
  unfold finalFlush
  by_cases he : p.2.isEmpty
  · rw [if_pos he]
    have : p.2 = [] := by simpa using he
    rw [words_joinSp, this]
    simp [flatWords, words, wordsAux]
  · rw [if_neg he, words_joinSp]
    simp [flatWords, words_trim]

theorem flatten_emptyOrEndsWs {segs : List (List Char)}
    (h : ∀ s ∈ segs, EndsWs s) : segs.flatten = [] ∨ EndsWs segs.flatten := by
  induction segs with
  | nil => exact Or.inl rfl
  | cons s rest ih =>
      have hs : EndsWs s := h s (by simp)
      have hrest := ih (fun x hx => h x (by simp [hx]))
      rcases hrest with h0 | hE
      · right; simpa [h0] using hs
      · right; simpa using endsWs_append_left s hE

theorem batch_fold_inv (maxSize : Nat) :
    ∀ (segs batches : List (List Char)) (current : List Char),
      (∀ s ∈ segs, EndsWs s) → (current = [] ∨ EndsWs current) →
      flatWords (segs.foldl (batchStep maxSize) (batches, current)).1
          ++ words (segs.foldl (batchStep maxSize) (batches, current)).2
        = flatWords batches ++ words (current ++ segs.flatten) ∧
      ((segs.foldl (batchStep maxSize) (batches, current)).2 = [] ∨
        EndsWs (segs.foldl (batchStep maxSize) (batches, current)).2) := by
  intro segs
  induction segs with
  | nil =>
      intro batches current _ h2
      exact ⟨by simp, h2⟩
  | cons s rest ih =>
      intro batches current h1 h2
      have hs : EndsWs s := h1 s (by simp)
      have hrest : ∀ x ∈ rest, EndsWs x := fun x hx => h1 x (by simp [hx])
      rw [List.foldl_cons]
      by_cases hc : ¬ current.isEmpty ∧ byteLen current + byteLen s > maxSize
      · rw [show batchStep maxSize (batches, current) s = (batches ++ [trim current], s)
          from by simp only [batchStep]; rw [if_pos hc]]
        obtain ⟨e1, e2⟩ := ih (batches ++ [trim current]) s hrest (Or.inr hs)
        have hEnds : EndsWs current := by
          rcases h2 with h0 | hE
          · exfalso; exact hc.1 (by simp [h0])
          · exact hE
        refine ⟨?_, e2⟩
        rw [e1, flatWords_append]
        have hone : flatWords [trim current] = words (trim current) := by
          simp [flatWords]
        rw [hone, words_trim, List.flatten_cons,
          words_append_endsWs hEnds (s ++ rest.flatten)]
        simp
      · rw [show batchStep maxSize (batches, current) s = (batches, current ++ s)
          from by simp only [batchStep]; rw [if_neg hc]]
        obtain ⟨e1, e2⟩ :=
          ih batches (current ++ s) hrest (Or.inr (endsWs_append_left current hs))
        refine ⟨?_, e2⟩
        rw [e1]
        simp

theorem split_into_batches_eq_of_not_le {maxSize : Nat} {text : List Char}
    (hb : ¬ byteLen text ≤ maxSize) :
    split_into_batches maxSize text
      = finalFlush (handleTail maxSize
          ((sentenceScan text).1.foldl (batchStep maxSize) ([], []))
          (sentenceScan text).2) := by
  unfold split_into_batches
  rw [if_neg hb]

theorem split_preserves_words (maxSize : Nat) (text : List Char)
    (h : byteLen (sentenceScan text).2 ≤ maxSize) :
    words (joinSp (split_into_batches maxSize text)) = words text := by
  by_cases hb : byteLen text ≤ maxSize
  · unfold split_into_batches
    rw [if_pos hb]
    rfl
  · rw [split_into_batches_eq_of_not_le hb]
    obtain ⟨e1, e2⟩ := batch_fold_inv maxSize (sentenceScan text).1 [] []
      (sentenceScan_endsWs text) (Or.inl rfl)
    have hflat := flatten_emptyOrEndsWs (sentenceScan_endsWs text)
    have hcontent := sentenceScan_content text
    set r := (sentenceScan text).1.foldl (batchStep maxSize) ([], []) with hr
    set rem := (sentenceScan text).2 with hrem
    have e1' : flatWords r.1 ++ words r.2 = words (sentenceScan text).1.flatten := by
      simpa [flatWords, words, wordsAux] using e1
    have hfinal : words (sentenceScan text).1.flatten ++ words rem = words text := by
      rw [← words_append_of_emptyOrEndsWs hflat rem, hcontent]
    simp only [handleTail]
    by_cases hre : rem.isEmpty
    · rw [if_pos hre]
      rw [words_joinSp_finalFlush, e1']
      have h0 : rem = [] := by simpa using hre
      have h1 : words rem = [] := by rw [h0]; rfl
      rw [← hfinal, h1, List.append_nil]
    · rw [if_neg hre]
      have hnotbig : ¬ byteLen rem > maxSize := by omega
      rw [if_neg hnotbig]
      by_cases hfl : ¬ r.2.isEmpty ∧ byteLen r.2 + byteLen rem > maxSize
      · rw [if_pos hfl]
        rw [words_joinSp_finalFlush]
        have hstep : flatWords (r.1 ++ [trim r.2]) ++ words ([] ++ rem)
            = (flatWords r.1 ++ words r.2) ++ words rem := by
          rw [flatWords_append]
          simp [flatWords, words_trim]
        rw [hstep, e1', hfinal]
      · rw [if_neg hfl]
        rw [words_joinSp_finalFlush]
        rw [words_append_of_emptyOrEndsWs e2 rem, ← List.append_assoc, e1', hfinal]

theorem limitMsg_ne_trialMsg (u l c : Int) : limitMsg u l c ≠ trialMsg := by
  intro h
  have h2 := congrArg (fun s => s.data.take 1) h
  simp [limitMsg, trialMsg, String.data_append] at h2

theorem seven_le_tdiv {a : Int} (h : 7 * 86400 ≤ a) : 7 ≤ Int.tdiv a 86400 := by
  have ha : (0 : Int) ≤ a := by omega
  rw [Int.tdiv_eq_ediv ha (by norm_num), Int.le_ediv_iff_mul_le (by norm_num)]
  omega

/-- C3: for a user that passes the trial check, `guard_usage` rejects with
`PaymentRequired` if and only if `characters_used_today + char_count` exceeds
the tier constant (free 20000, pro 200000); the message carries the used,
limit and requested values; a request landing exactly on the limit is allowed;
and a rejected request (guard error inside `synthesize`) records no usage
increment. -/
theorem C3_guard_usage_quota :
    (∀ (user : User) (now : Int) (usageToday : Option Int) (charCount : Int),
      is_trial_expired user now = false →
      (guard_usage user now usageToday charCount
          = Except.error (TtsServiceError.paymentRequired
              (limitMsg (usageToday.getD 0)
                (if user.subscription_tier = SubscriptionTier.free then 20000
                 else 200000) charCount))
        ↔ usageToday.getD 0 + charCount
            > (if user.subscription_tier = SubscriptionTier.free then 20000
               else 200000)) ∧
      (usageToday.getD 0 + charCount
          ≤ (if user.subscription_tier = SubscriptionTier.free then 20000
             else 200000) →
        guard_usage user now usageToday charCount = Except.ok ())) ∧
    (∀ (env : SynthEnv) (raw : List Char) (user : User) (e : TtsServiceError),
      env.user = some user →
      guard_usage user env.now env.usageToday
          ((byteLen (clean_text env.htmlRender raw) : Int)) = Except.error e →
      (synthesize env raw).result = Except.error e ∧
        (synthesize env raw).increments = [] ∧
        (synthesize env raw).providerCalls = []) := by
  constructor
  · intro user now usageToday charCount htrial
    cases htier : user.subscription_tier with
    | free =>
        by_cases hcmp : usageToday.getD 0 + charCount > 20000
        · simp [guard_usage, htrial, htier, hcmp]
        · simp [guard_usage, htrial, htier, hcmp]
    | pro =>
        by_cases hcmp : usageToday.getD 0 + charCount > 200000
        · simp [guard_usage, htier, hcmp]
        · simp [guard_usage, htier, hcmp]
  · intro env raw user e henv herr
    simp only [synthesize, henv, herr]
    exact ⟨trivial, trivial, trivial⟩

/-- Witness for C3 at the spec's own numbers adapted to the code's free-tier
constant 20000: with 19900 characters used, a request of 50 is allowed, one of
200 is rejected with the exact message, and the rejection increments nothing. -/
theorem C3_witness :
    (is_trial_expired ⟨SubscriptionTier.free, 0⟩ 0 = false ∧
      guard_usage ⟨SubscriptionTier.free, 0⟩ 0 (some 19900) 50 = Except.ok ()) ∧
    (guard_usage ⟨SubscriptionTier.free, 0⟩ 0 (some 19900) 200
        = Except.error (TtsServiceError.paymentRequired
            (limitMsg 19900 20000 200))) := by
  refine ⟨⟨by decide, ?_⟩, ?_⟩
  · exact (C3_guard_usage_quota.1 ⟨SubscriptionTier.free, 0⟩ 0 (some 19900) 50
      (by decide)).2 (by decide)
  · exact ((C3_guard_usage_quota.1 ⟨SubscriptionTier.free, 0⟩ 0 (some 19900) 200
      (by decide)).1).mpr (by decide)

/-- C4: a free-tier user whose account age is at least 7 days always gets
`PaymentRequired` ("trial expired") from `synthesize`, whatever today's usage
and the request size, with no provider call and no increment — the trial check
precedes the numeric quota comparison; and the trial rejection can never be
produced for a pro-tier user. -/
theorem C4_trial_expiry :
    (∀ (env : SynthEnv) (user : User) (raw : List Char),
      env.user = some user →
      user.subscription_tier = SubscriptionTier.free →
      7 * 86400 ≤ env.now - user.created_at →
      (synthesize env raw).result
          = Except.error (TtsServiceError.paymentRequired trialMsg) ∧
        (synthesize env raw).providerCalls = [] ∧
        (synthesize env raw).increments = []) ∧
    (∀ (user : User) (now : Int) (usageToday : Option Int) (charCount : Int),
      user.subscription_tier = SubscriptionTier.pro →
      guard_usage user now usageToday charCount
        ≠ Except.error (TtsServiceError.paymentRequired trialMsg)) := by
  constructor
  · intro env user raw henv htier hage
    have hexp : is_trial_expired user env.now = true := by
      simp [is_trial_expired, htier]
      exact seven_le_tdiv hage
    have hguard : guard_usage user env.now env.usageToday
        ((byteLen (clean_text env.htmlRender raw) : Int))
        = Except.error (TtsServiceError.paymentRequired trialMsg) := by
      simp [guard_usage, htier, hexp]
    simp only [synthesize, henv, hguard]
    exact ⟨trivial, trivial, trivial⟩
  · intro user now usageToday charCount htier h
    by_cases hcmp : usageToday.getD 0 + charCount > 200000
    · rw [show guard_usage user now usageToday charCount
          = Except.error (TtsServiceError.paymentRequired
              (limitMsg (usageToday.getD 0) 200000 charCount))
        from by simp [guard_usage, htier, hcmp]] at h
      exact limitMsg_ne_trialMsg _ _ _ (by injection h with h2; injection h2)
    · rw [show guard_usage user now usageToday charCount = Except.ok ()
        from by simp [guard_usage, htier, hcmp]] at h
      cases h

/-- Witness for C4: a free account created at time 0 and queried at exactly
7 days is refused with the trial message even with zero usage, and a pro
account at the same age is not refused with it. -/
theorem C4_witness :
    ({ htmlRender := id, detector := fun _ => none,
       user := some ⟨SubscriptionTier.free, 0⟩, usageToday := none,
       provider := fun _ => Except.ok [], now := 604800 } : SynthEnv).user
        = some ⟨SubscriptionTier.free, 0⟩ ∧
    (synthesize
        { htmlRender := id, detector := fun _ => none,
          user := some ⟨SubscriptionTier.free, 0⟩, usageToday := none,
          provider := fun _ => Except.ok [], now := 604800 } "hi".data).result
      = Except.error (TtsServiceError.paymentRequired trialMsg) ∧
    guard_usage ⟨SubscriptionTier.pro, 0⟩ 604800 none 1
      ≠ Except.error (TtsServiceError.paymentRequired trialMsg) := by
  refine ⟨rfl, ?_, ?_⟩
  · exact (C4_trial_expiry.1
      { htmlRender := id, detector := fun _ => none,
        user := some ⟨SubscriptionTier.free, 0⟩, usageToday := none,
        provider := fun _ => Except.ok [], now := 604800 }
      ⟨SubscriptionTier.free, 0⟩ "hi".data rfl rfl (by norm_num)).1
  · exact C4_trial_expiry.2 ⟨SubscriptionTier.pro, 0⟩ 604800 none 1 rfl

/-- C9 counterexample: the two detection call sites do NOT share one default.
On classification failure `TtsService::detect_language` returns English while
the free function `detect_language` of language.rs returns Spanish, so the
claim's "the same default at every call site" is false. -/
theorem C9_counterexample :
    detect_language (fun _ => none) [] = LanguageCode.english ∧
    language_detect_language (fun _ => none) [] = LanguageCode.spanish ∧
    LanguageCode.english ≠ LanguageCode.spanish :=
  ⟨rfl, rfl, by decide⟩

/-- C9 amended: both call sites agree (and return a supported code) whenever
the classifier is confident, and each falls back to a fixed default on
failure — but the defaults differ: English in `TtsService::detect_language`,
Spanish in language.rs's `detect_language`. -/
theorem C9_detection_fallbacks :
    (∀ (detector : List Char → Option Lingua) (text : List Char) (l : Lingua),
      detector text = some l →
      detect_language detector text = language_detect_language detector text) ∧
    (∀ (detector : List Char → Option Lingua) (text : List Char),
      detector text = none →
      detect_language detector text = LanguageCode.english ∧
        language_detect_language detector text = LanguageCode.spanish) := by
  constructor
  · intro detector text l h
    simp [detect_language, language_detect_language, h]
  · intro detector text h
    simp [detect_language, language_detect_language, h]

/-- Witness for C9 amended: a confident German classification agrees at both
sites; a failed classification yields the two distinct defaults. -/
theorem C9_witness :
    ((fun _ : List Char => some Lingua.german) [] = some Lingua.german ∧
      detect_language (fun _ => some Lingua.german) []
        = language_detect_language (fun _ => some Lingua.german) []) ∧
    ((fun _ : List Char => (none : Option Lingua)) [] = none ∧
      detect_language (fun _ => none) [] = LanguageCode.english ∧
        language_detect_language (fun _ => none) [] = LanguageCode.spanish) :=
  ⟨⟨rfl, C9_detection_fallbacks.1 (fun _ => some Lingua.german) [] Lingua.german rfl⟩,
   ⟨rfl, C9_detection_fallbacks.2 (fun _ => none) [] rfl⟩⟩

/-- C10: the controller rejects raw text of byte length 0 with `BadRequest`
and raw text longer than 10000 bytes with `PayloadTooLarge`, in both cases
without invoking the TTS service; any other raw text is handed to the service
unchanged (the checks are on the raw text, not its normalized form). -/
theorem C10_controller_validation :
    ∀ (env : SynthEnv) (raw : List Char),
      (byteLen raw = 0 →
        controller_synthesize env raw
          = (Except.error (AppError.badRequest "Text cannot be empty"), none)) ∧
      (byteLen raw > 10000 →
        controller_synthesize env raw
          = (Except.error (AppError.payloadTooLarge
              "Text must be 10,000 characters or less"), none)) ∧
      (1 ≤ byteLen raw → byteLen raw ≤ 10000 →
        (controller_synthesize env raw).2 = some raw) := by
  intro env raw
  refine ⟨?_, ?_, ?_⟩
  · intro h0
    simp [controller_synthesize, h0]
  · intro hbig
    have h1 : ¬ ((byteLen raw : Int) = 0) := by omega
    have h2 : ((byteLen raw : Int) > 10000) := by omega
    simp [controller_synthesize, h1, h2]
  · intro hlow hhigh
    have h1 : ¬ ((byteLen raw : Int) = 0) := by omega
    have h2 : ¬ ((byteLen raw : Int) > 10000) := by omega
    simp [controller_synthesize, h1, h2]

/-- Witness for C10 on a concrete environment: the empty text is rejected as
`BadRequest`, 10001 bytes are rejected as `PayloadTooLarge`, and a one-byte
text reaches the service. -/
theorem C10_witness :
    (byteLen [] = 0 ∧
      controller_synthesize
          { htmlRender := id, detector := fun _ => none,
            user := some ⟨SubscriptionTier.pro, 0⟩, usageToday := none,
            provider := fun _ => Except.ok [], now := 0 } []
        = (Except.error (AppError.badRequest "Text cannot be empty"), none)) ∧
    (byteLen (List.replicate 10001 'a') > 10000 ∧
      controller_synthesize
          { htmlRender := id, detector := fun _ => none,
            user := some ⟨SubscriptionTier.pro, 0⟩, usageToday := none,
            provider := fun _ => Except.ok [], now := 0 }
          (List.replicate 10001 'a')
        = (Except.error (AppError.payloadTooLarge
            "Text must be 10,000 characters or less"), none)) ∧
    (1 ≤ byteLen ['a'] ∧ byteLen ['a'] ≤ 10000 ∧
      (controller_synthesize
          { htmlRender := id, detector := fun _ => none,
            user := some ⟨SubscriptionTier.pro, 0⟩, usageToday := none,
            provider := fun _ => Except.ok [], now := 0 } ['a']).2 = some ['a']) := by
  have hrep : byteLen (List.replicate 10001 'a') = 10001 := by
    rw [byteLen_replicate]
    decide
  refine ⟨⟨rfl, ?_⟩, ⟨by rw [hrep]; norm_num, ?_⟩, ⟨by decide, by decide, ?_⟩⟩
  · exact (C10_controller_validation _ []).1 rfl
  · exact (C10_controller_validation _ (List.replicate 10001 'a')).2.1
      (by rw [hrep]; norm_num)
  · exact ((C10_controller_validation _ ['a']).2.2) (by decide) (by decide)

theorem synthesize_batches_all_ok (provider : List Char → Except String (List Nat))
    (f : List Char → List Nat) :
    ∀ batches : List (List Char), (∀ b ∈ batches, provider b = Except.ok (f b)) →
      synthesize_batches provider batches
        = (Except.ok (batches.map f).flatten, batches) := by
  intro batches
  induction batches with
  | nil => intro _; rfl
  | cons b bs ih =>
      intro h
      have hb : provider b = Except.ok (f b) := h b (by simp)
      have hbs := ih (fun x hx => h x (by simp [hx]))
      simp [synthesize_batches, hb, hbs]

theorem synthesize_batches_calls_take
    (provider : List Char → Except String (List Nat)) :
    ∀ batches : List (List Char),
      ∃ k, (synthesize_batches provider batches).2 = batches.take k := by
  intro batches
  induction batches with
  | nil => exact ⟨0, rfl⟩
  | cons b bs ih =>
      obtain ⟨k, hk⟩ := ih
      cases hp : provider b with
      | error e => exact ⟨1, by simp [synthesize_batches, hp]⟩
      | ok audio =>
          refine ⟨k + 1, ?_⟩
          simp [synthesize_batches, hp, hk]

/-- C5: after the guard has passed, a failing provider call surfaces as a
`Dependency` error and `increment_usage` is never invoked; when every batch
succeeds, usage is incremented exactly once (by the cleaned text's character
count, recorded as one atomic upsert event) only after all batches, the
provider is called on exactly the batch list in its original order, and the
returned audio is the concatenation of the per-batch audio in that order;
in every case the calls made form an order-preserving prefix of the batch
list. -/
theorem C5_provider_errors_and_merge_order :
    ∀ (env : SynthEnv) (user : User) (raw : List Char),
      env.user = some user →
      guard_usage user env.now env.usageToday
          ((byteLen (clean_text env.htmlRender raw) : Int)) = Except.ok () →
      (∀ msg, (synthesize_batches env.provider
            (split_into_batches 3000 (clean_text env.htmlRender raw))).1
          = Except.error msg →
        (synthesize env raw).result
            = Except.error (TtsServiceError.dependency msg) ∧
          (synthesize env raw).increments = []) ∧
      (∀ f : List Char → List Nat,
        (∀ b ∈ split_into_batches 3000 (clean_text env.htmlRender raw),
          env.provider b = Except.ok (f b)) →
        (synthesize env raw).result
            = Except.ok
                ⟨((split_into_batches 3000 (clean_text env.htmlRender raw)).map
                    f).flatten,
                  detect_language env.detector (clean_text env.htmlRender raw),
                  (byteLen (clean_text env.htmlRender raw) : Int)⟩ ∧
          (synthesize env raw).increments
              = [(byteLen (clean_text env.htmlRender raw) : Int)] ∧
          (synthesize env raw).providerCalls
              = split_into_batches 3000 (clean_text env.htmlRender raw)) ∧
      (∃ k, (synthesize env raw).providerCalls
          = (split_into_batches 3000 (clean_text env.htmlRender raw)).take k) := by
  intro env user raw henv hguard
  refine ⟨?_, ?_, ?_⟩
  · intro msg hmsg
    simp only [synthesize, henv, hguard, hmsg]
    exact ⟨trivial, trivial⟩
  · intro f hok
    have hall := synthesize_batches_all_ok env.provider f
      (split_into_batches 3000 (clean_text env.htmlRender raw)) hok
    simp only [synthesize, henv, hguard, hall]
    exact ⟨trivial, trivial, trivial⟩
  · obtain ⟨k, hk⟩ := synthesize_batches_calls_take env.provider
      (split_into_batches 3000 (clean_text env.htmlRender raw))
    refine ⟨k, ?_⟩
    simp only [synthesize, henv, hguard]
    cases hsb : (synthesize_batches env.provider
        (split_into_batches 3000 (clean_text env.htmlRender raw))).1 with
    | error e => rw [hsb] at *; simpa using hk
    | ok audio => rw [hsb] at *; simpa using hk

/-- Witness for C5: on a one-batch text, a failing provider yields the
`Dependency` error with no increment, and an all-ok provider yields the
concatenated audio with exactly one increment. -/
theorem C5_witness :
    (({ testEnv with provider := fun _ => Except.error "Polly down" }
          : SynthEnv).user = some ⟨SubscriptionTier.pro, 0⟩ ∧
      (synthesize { testEnv with provider := fun _ => Except.error "Polly down" }
          "hi".data).result
        = Except.error (TtsServiceError.dependency "Polly down") ∧
      (synthesize { testEnv with provider := fun _ => Except.error "Polly down" }
          "hi".data).increments = []) ∧
    ((synthesize { testEnv with provider := fun _ => Except.ok [3, 4] }
          "hi".data).result
        = Except.ok ⟨[3, 4], LanguageCode.english, 2⟩ ∧
      (synthesize { testEnv with provider := fun _ => Except.ok [3, 4] }
          "hi".data).increments = [2]) := by
  have h1 := (C5_provider_errors_and_merge_order
      { testEnv with provider := fun _ => Except.error "Polly down" }
      ⟨SubscriptionTier.pro, 0⟩ "hi".data rfl (by decide)).1 "Polly down" (by decide)
  have h2 := ((C5_provider_errors_and_merge_order
      { testEnv with provider := fun _ => Except.ok [3, 4] }
      ⟨SubscriptionTier.pro, 0⟩ "hi".data rfl (by decide)).2.1
        (fun _ => [3, 4]) (fun b _ => rfl))
  refine ⟨⟨rfl, h1.1, h1.2⟩, ?_, h2.2.1⟩
  rw [h2.1]
  decide

/-- C6 counterexample: the raw text `" "` (one space) normalizes to the empty
string, yet `synthesize` does not fail with InvalidInput — it runs to
completion and the provider IS called (once, on the empty batch), refuting
"fails with InvalidInput before language detection and before any provider
call". -/
theorem C6_counterexample :
    clean_text id " ".data = [] ∧
    (synthesize testEnv " ".data).result
      = Except.ok ⟨[], LanguageCode.english, 0⟩ ∧
    (synthesize testEnv " ".data).providerCalls = [[]] := by
  refine ⟨by decide, by decide, by decide⟩

/-- C6 amended: only raw text of byte length 0 is rejected — by the
controller, with `BadRequest`, before the service runs.  Raw input that
normalizes to the empty string but has nonzero length (all white space,
markup-only, URL-only) is NOT rejected: for an existing user whose guard
passes, `synthesize` sends the empty normalized text to the provider as one
empty batch, and it never produces an InvalidInput for such input. -/
theorem C6_empty_normalized :
    (∀ (env : SynthEnv) (raw : List Char), byteLen raw = 0 →
      controller_synthesize env raw
        = (Except.error (AppError.badRequest "Text cannot be empty"), none)) ∧
    (∀ (env : SynthEnv) (raw : List Char) (user : User),
      clean_text env.htmlRender raw = [] →
      env.user = some user →
      guard_usage user env.now env.usageToday 0 = Except.ok () →
      (synthesize env raw).providerCalls = [[]] ∧
        ∀ msg, (synthesize env raw).result
          ≠ Except.error (TtsServiceError.invalid msg)) := by
  constructor
  · intro env raw h0
    simp [controller_synthesize, h0]
  · intro env raw user hclean henv hguard
    have hcc : ((byteLen (clean_text env.htmlRender raw) : Int)) = 0 := by
      rw [hclean]; rfl
    have hguard' : guard_usage user env.now env.usageToday
        ((byteLen (clean_text env.htmlRender raw) : Int)) = Except.ok () := by
      rw [hcc]; exact hguard
    have hsplit : split_into_batches 3000 (clean_text env.htmlRender raw)
        = [[]] := by rw [hclean]; rfl
    cases hp : env.provider [] with
    | error e =>
        have hsb : synthesize_batches env.provider
            (split_into_batches 3000 (clean_text env.htmlRender raw))
            = (Except.error e, [[]]) := by
          rw [hsplit]; simp [synthesize_batches, hp]
        constructor
        · simp only [synthesize, henv, hguard', hsb]
        · intro msg
          simp only [synthesize, henv, hguard', hsb]
          intro hcontra
          cases hcontra
    | ok audio =>
        have hsb : synthesize_batches env.provider
            (split_into_batches 3000 (clean_text env.htmlRender raw))
            = (Except.ok audio, [[]]) := by
          rw [hsplit]; simp [synthesize_batches, hp]
        constructor
        · simp only [synthesize, henv, hguard', hsb]
        · intro msg
          simp only [synthesize, henv, hguard', hsb]
          intro hcontra
          cases hcontra

/-- Witness for C6 amended: the empty raw text is rejected by the controller;
the one-space raw text cleans to empty yet the provider is called on the
empty batch and no InvalidInput arises. -/
theorem C6_witness :
    (byteLen [] = 0 ∧
      controller_synthesize testEnv []
        = (Except.error (AppError.badRequest "Text cannot be empty"), none)) ∧
    (clean_text testEnv.htmlRender " ".data = [] ∧
      (synthesize testEnv " ".data).providerCalls = [[]] ∧
      (synthesize testEnv " ".data).result
        ≠ Except.error (TtsServiceError.invalid "Text is empty")) := by
  have h2 := C6_empty_normalized.2 testEnv " ".data ⟨SubscriptionTier.pro, 0⟩
    (by decide) rfl (by decide)
  exact ⟨⟨rfl, C6_empty_normalized.1 testEnv [] rfl⟩,
    ⟨by decide, h2.1, h2.2 "Text is empty"⟩⟩

theorem synthesize_ok_increments (env : SynthEnv) (raw : List Char)
    (r : TtsSynthesisResult) (h : (synthesize env raw).result = Except.ok r) :
    (synthesize env raw).increments = [r.char_count] := by
  cases henv : env.user with
  | none => simp only [synthesize, henv] at h; cases h
  | some user =>
      cases hg : guard_usage user env.now env.usageToday
          ((byteLen (clean_text env.htmlRender raw) : Int)) with
      | error e => simp only [synthesize, henv, hg] at h; cases h
      | ok u =>
          cases hsb : (synthesize_batches env.provider
              (split_into_batches 3000 (clean_text env.htmlRender raw))).1 with
          | error msg => simp only [synthesize, henv, hg, hsb] at h; cases h
          | ok audio =>
              simp only [synthesize, henv, hg, hsb] at h ⊢
              cases h
              rfl

/-- C7 (cache modelled from the spec): with caching enabled and a cold cache
for the link, if the first `synthesize` call succeeds then a second call with
the identical `source_link` returns the byte-identical stored result, makes no
provider call, performs no further increment (the single increment happened on
the first call), and leaves the cache unchanged. -/
theorem C7_cache_second_call_free :
    ∀ (env : SynthEnv) (cache : List (List Char × TtsSynthesisResult))
      (raw link : List Char) (r : TtsSynthesisResult),
      cache_lookup cache link = none →
      (synthesize_with_cache true cache env raw link).1.result = Except.ok r →
      (synthesize_with_cache true
            (synthesize_with_cache true cache env raw link).2 env raw
            link).1.result = Except.ok r ∧
        (synthesize_with_cache true
            (synthesize_with_cache true cache env raw link).2 env raw
            link).1.providerCalls = [] ∧
        (synthesize_with_cache true
            (synthesize_with_cache true cache env raw link).2 env raw
            link).1.increments = [] ∧
        (synthesize_with_cache true cache env raw link).1.increments
          = [r.char_count] := by
  intro env cache raw link r hmiss hok
  cases hres0 : (synthesize env raw).result with
  | error e =>
      exfalso
      rw [show synthesize_with_cache true cache env raw link
          = (synthesize env raw, cache) from by
        simp [synthesize_with_cache, hmiss, hres0]] at hok
      rw [hres0] at hok
      cases hok
  | ok r0 =>
      have hfirst : synthesize_with_cache true cache env raw link
          = (synthesize env raw, (link, r0) :: cache) := by
        simp [synthesize_with_cache, hmiss, hres0]
      have hrr : r0 = r := by
        rw [hfirst] at hok
        rw [hres0] at hok
        cases hok
        rfl
      subst hrr
      have hres : (synthesize env raw).result = Except.ok r0 := hres0
      rw [hfirst]
      have hhit : cache_lookup ((link, r0) :: cache) link = some r0 := by
        simp [cache_lookup]
      refine ⟨?_, ?_, ?_, ?_⟩
      · simp [synthesize_with_cache, hhit]
      · simp [synthesize_with_cache, hhit]
      · simp [synthesize_with_cache, hhit]
      · simpa using synthesize_ok_increments env raw r0 hres

/-- Witness for C7: a concrete first call on a cold cache succeeds and
charges once; the second call with the same link is served from the cache. -/
theorem C7_witness :
    (cache_lookup [] "x".data = none ∧
      (synthesize_with_cache true [] testEnv "hi".data "x".data).1.result
        = Except.ok ⟨[], LanguageCode.english, 2⟩) ∧
    ((synthesize_with_cache true
          (synthesize_with_cache true [] testEnv "hi".data "x".data).2 testEnv
          "hi".data "x".data).1.result
        = Except.ok ⟨[], LanguageCode.english, 2⟩ ∧
      (synthesize_with_cache true
          (synthesize_with_cache true [] testEnv "hi".data "x".data).2 testEnv
          "hi".data "x".data).1.providerCalls = [] ∧
      (synthesize_with_cache true [] testEnv "hi".data "x".data).1.increments
        = [2]) := by
  have h := C7_cache_second_call_free testEnv [] "hi".data "x".data
    ⟨[], LanguageCode.english, 2⟩ rfl (by decide)
  exact ⟨⟨rfl, by decide⟩, ⟨h.1, h.2.1, h.2.2.2⟩⟩

theorem foldl_scanStep_replicate (n : Nat) (segs : List (List Char))
    (acc : List Char) :
    (List.replicate n 'a').foldl scanStep ⟨segs, acc, Pend.none⟩
      = ⟨segs, acc ++ List.replicate n 'a', Pend.none⟩ := by
  induction n generalizing acc with
  | zero => simp
  | succ n ih =>
      rw [List.replicate_succ, List.foldl_cons]
      rw [show scanStep ⟨segs, acc, Pend.none⟩ 'a'
          = ⟨segs, acc ++ ['a'], Pend.none⟩ from by simp [scanStep, isTerm]]
      rw [ih]
      simp

theorem sentenceScan_replicate (n : Nat) :
    sentenceScan (List.replicate n 'a') = ([], List.replicate n 'a') := by
  unfold sentenceScan
  rw [foldl_scanStep_replicate]
  simp [scanFinish]

theorem chunksFuel_nil (f n : Nat) : chunksFuel f n [] = [] := by
  cases f <;> simp [chunksFuel]

theorem chunksFuel_succ (f n : Nat) (c : Char) (l : List Char) :
    chunksFuel (f + 1) n (c :: l)
      = (c :: l).take n :: chunksFuel f n ((c :: l).drop n) := by
  simp [chunksFuel]

theorem chunksOf_replicate_3001 :
    chunksOf 3000 (List.replicate 3001 'a') = [List.replicate 3000 'a', ['a']] := by
  unfold chunksOf
  rw [List.length_replicate]
  rw [show (3001 : Nat) = 3000 + 1 from rfl]
  rw [show List.replicate (3000 + 1) 'a' = 'a' :: List.replicate 3000 'a' from
    List.replicate_succ 'a' 3000]
  rw [chunksFuel_succ]
  rw [show ('a' :: List.replicate 3000 'a') = List.replicate (3000 + 1) 'a' from
    (List.replicate_succ 'a' 3000).symm]
  rw [List.take_replicate, List.drop_replicate]
  simp only [show min 3000 (3000 + 1) = 3000 from by omega,
    show 3000 + 1 - 3000 = 1 from by omega]
  rw [show (3000 : Nat) = 2999 + 1 from rfl]
  rw [show List.replicate 1 'a' = ['a'] from rfl]
  rw [chunksFuel_succ]
  rw [List.take_of_length_le (by simp), List.drop_eq_nil_of_le (by simp),
    chunksFuel_nil]

theorem wordsAux_replicate (n : Nat) (cur : List Char) :
    wordsAux cur (List.replicate n 'a')
      = wordsAux (List.replicate n 'a' ++ cur) [] := by
  induction n generalizing cur with
  | zero => simp
  | succ n ih =>
      rw [List.replicate_succ]
      rw [show wordsAux cur ('a' :: List.replicate n 'a')
          = wordsAux ('a' :: cur) (List.replicate n 'a') from by
        simp [wordsAux, isWs]]
      rw [ih ('a' :: cur)]
      rw [show List.replicate n 'a' ++ 'a' :: cur
          = (List.replicate n 'a' ++ ['a']) ++ cur from by simp]
      rw [← List.replicate_succ']
      rw [List.replicate_succ]

theorem words_replicate (n : Nat) :
    words (List.replicate (n + 1) 'a') = [List.replicate (n + 1) 'a'] := by
  unfold words
  rw [wordsAux_replicate]
  rw [List.append_nil]
  rw [show wordsAux (List.replicate (n + 1) 'a') []
      = if (List.replicate (n + 1) 'a').isEmpty then []
        else [(List.replicate (n + 1) 'a').reverse] from rfl]
  rw [List.replicate_succ]
  simp [List.reverse_replicate, List.replicate_succ]
  rw [← List.replicate_succ, ← List.replicate_succ']

theorem handleTail_chunks (maxSize : Nat) (rem : List Char)
    (hne : rem.isEmpty = false) (hbig : byteLen rem > maxSize) :
    handleTail maxSize ([], []) rem = (chunksOf maxSize rem, []) := by
  unfold handleTail
  rw [if_neg (by rw [hne]; simp)]
  rw [if_neg (show ¬ (¬ (([], ([] : List Char)) : List (List Char) × List Char).2.isEmpty
      ∧ byteLen (([], ([] : List Char)) : List (List Char) × List Char).2
        + byteLen rem > maxSize) from fun h => h.1 rfl)]
  rw [if_pos hbig]
  rfl

theorem handleTail_flush_small (maxSize : Nat) (cur rem : List Char)
    (hne : rem.isEmpty = false) (hcur : cur.isEmpty = false)
    (hflush : byteLen cur + byteLen rem > maxSize)
    (hsmall : ¬ byteLen rem > maxSize) :
    handleTail maxSize ([], cur) rem = ([trim cur], rem) := by
  unfold handleTail
  rw [if_neg (by rw [hne]; simp)]
  rw [if_pos (show ¬ (([], cur) : List (List Char) × List Char).2.isEmpty
      ∧ byteLen (([], cur) : List (List Char) × List Char).2 + byteLen rem > maxSize
    from ⟨by rw [hcur]; simp, hflush⟩)]
  rw [if_neg hsmall]
  rfl

theorem scanSteps_dot_space_b (A : List Char) :
    List.foldl scanStep ⟨[], A, Pend.none⟩ ['.', ' ', 'b']
      = ⟨[A ++ ['.', ' ']], ['b'], Pend.none⟩ := by
  simp [List.foldl_cons, scanStep, isTerm, isWs]

theorem batchStep_empty_current (maxSize : Nat) (batches : List (List Char))
    (s : List Char) : batchStep maxSize (batches, []) s = (batches, s) := by
  simp [batchStep]

theorem words_joinSp_two_replicate (n m : Nat) :
    words (joinSp [List.replicate (n + 1) 'a', List.replicate (m + 1) 'a'])
      = [List.replicate (n + 1) 'a', List.replicate (m + 1) 'a'] := by
  have hws : isWs ' ' := by decide
  rw [show joinSp [List.replicate (n + 1) 'a', List.replicate (m + 1) 'a']
      = List.replicate (n + 1) 'a' ++ ' ' :: List.replicate (m + 1) 'a' from rfl]
  rw [show words (List.replicate (n + 1) 'a' ++ ' ' :: List.replicate (m + 1) 'a')
      = words (List.replicate (n + 1) 'a') ++ words (List.replicate (m + 1) 'a')
    from by
      simpa [words] using
        wordsAux_append_ws hws (List.replicate (n + 1) 'a')
          (List.replicate (m + 1) 'a') []]
  rw [words_replicate, words_replicate]
  rfl

/-- C2 counterexample: for the punctuation-free normalized text of 3001 'a's
(its own normalized form), the hard character-split path cuts inside the single
word, so joining the batches with spaces and splitting on white space yields
two words where the input had one. -/
theorem C2_counterexample :
    words (joinSp (split_into_batches 3000 (List.replicate 3001 'a')))
      ≠ words (List.replicate 3001 'a') := by
  have hlen : byteLen (List.replicate 3001 'a') = 3001 := by
    rw [byteLen_replicate]; rfl
  have hnotle : ¬ byteLen (List.replicate 3001 'a') ≤ 3000 := by omega
  have hsplit : split_into_batches 3000 (List.replicate 3001 'a')
      = [List.replicate 3000 'a', ['a']] := by
    rw [split_into_batches_eq_of_not_le hnotle, sentenceScan_replicate]
    simp only [List.foldl_nil]
    rw [handleTail_chunks 3000 (List.replicate 3001 'a')
      (by rw [show (3001 : Nat) = 3000 + 1 from rfl, List.replicate_succ]; rfl)
      (by omega)]
    rw [chunksOf_replicate_3001]
    rfl
  rw [hsplit]
  rw [show (3000 : Nat) = 2999 + 1 from rfl]
  rw [show (['a'] : List Char) = List.replicate (0 + 1) 'a' from rfl]
  rw [words_joinSp_two_replicate]
  rw [show (3001 : Nat) = 3000 + 1 from rfl, words_replicate]
  intro h
  have hlen2 := congrArg List.length h
  simp only [List.length_cons, List.length_nil] at hlen2
  omega

/-- C2 amended: whenever the remaining tail after the last sentence boundary
fits within `maxSize` (the hard character-split path of step 3 is not taken),
joining all batches of `split_into_batches` with single spaces and splitting
on white space yields exactly the word sequence of the input text.  This holds
for every `maxSize`, in particular 3000 (TtsService, Polly) and 4096 (OpenAI).
The counterexample shows it fails when the hard split is taken. -/
theorem C2_words_preserved (maxSize : Nat) (text : List Char)
    (h : byteLen (sentenceScan text).2 ≤ maxSize) :
    words (joinSp (split_into_batches maxSize text)) = words text :=
  split_preserves_words maxSize text h

/-- Witness for C2 amended at `maxSize = 5` on `"ab. cd"`: the tail `"cd"`
fits, the text splits into two batches, and the word sequence is preserved. -/
theorem C2_witness :
    byteLen (sentenceScan "ab. cd".data).2 ≤ 5 ∧
    words (joinSp (split_into_batches 5 "ab. cd".data)) = words "ab. cd".data :=
  ⟨by decide, C2_words_preserved 5 "ab. cd".data (by decide)⟩

theorem trim_replicate_dot_space (n : Nat) :
    trim (List.replicate (n + 1) 'a' ++ ['.', ' '])
      = List.replicate (n + 1) 'a' ++ ['.'] := by
  unfold trim
  rw [show List.replicate (n + 1) 'a' ++ ['.', ' ']
      = 'a' :: (List.replicate n 'a' ++ ['.', ' ']) from by
    rw [List.replicate_succ]; simp]
  rw [List.dropWhile_cons]
  simp only [show isWs 'a' = false from by decide, Bool.false_eq_true, if_false]
  rw [show ('a' :: (List.replicate n 'a' ++ ['.', ' '])).reverse
      = ' ' :: '.' :: ('a' :: List.replicate n 'a').reverse from by simp]
  rw [List.dropWhile_cons]
  simp only [show isWs ' ' = true from by decide, if_true]
  rw [List.dropWhile_cons]
  simp only [show isWs '.' = false from by decide, Bool.false_eq_true, if_false]
  rw [show ('.' :: ('a' :: List.replicate n 'a').reverse).reverse
      = ('a' :: List.replicate n 'a') ++ ['.'] from by simp]
  rw [← List.replicate_succ]

/-- C1 (code bug): on a single 3501-byte sentence followed by a short word —
`'a'` repeated 3500 times, then `". b"` — `split_into_batches` with
`MAX_BATCH_SIZE = 3000` emits the whole trimmed sentence as one batch of 3501
bytes, violating its own documented bound "Each batch is at most
MAX_BATCH_SIZE characters". -/
theorem C1_overlong_sentence_batch :
    split_into_batches 3000 (List.replicate 3500 'a' ++ ['.', ' ', 'b'])
      = [List.replicate 3500 'a' ++ ['.'], ['b']] ∧
    byteLen (List.replicate 3500 'a' ++ ['.']) = 3501 := by
  have hseg : sentenceScan (List.replicate 3500 'a' ++ ['.', ' ', 'b'])
      = ([List.replicate 3500 'a' ++ ['.', ' ']], ['b']) := by
    unfold sentenceScan
    rw [List.foldl_append, foldl_scanStep_replicate, List.nil_append,
      scanSteps_dot_space_b]
    rfl
  have hblen : byteLen (List.replicate 3500 'a' ++ ['.', ' ', 'b']) = 3503 := by
    rw [byteLen_append, byteLen_replicate]
    rfl
  have hseglen : byteLen (List.replicate 3500 'a' ++ ['.', ' ']) = 3502 := by
    rw [byteLen_append, byteLen_replicate]
    rfl
  have hnotle : ¬ byteLen (List.replicate 3500 'a' ++ ['.', ' ', 'b']) ≤ 3000 := by
    omega
  constructor
  · rw [split_into_batches_eq_of_not_le hnotle, hseg]
    simp only [List.foldl_cons, List.foldl_nil]
    rw [batchStep_empty_current]
    rw [handleTail_flush_small 3000 (List.replicate 3500 'a' ++ ['.', ' ']) ['b']
      rfl
      (by rw [show (3500 : Nat) = 3499 + 1 from rfl, List.replicate_succ]; rfl)
      (by rw [hseglen]; decide)
      (by decide)]
    rw [show (3500 : Nat) = 3499 + 1 from rfl, trim_replicate_dot_space]
    rfl
  · rw [byteLen_append, byteLen_replicate]
    rfl

end Feedtape
